import Mathlib

/-!
# Verification of the `snap_ctx` OpenAI client core

A shallow embedding of `src/utils/openai_client.py`: the streaming tool-call
aggregator, the round executor, the conversation loop of
`send_messages_stream_with_tool_call`, the plain `send_messages_stream`
loop, and the token-usage accumulator (`update_total_token_usage`).

Modelling conventions:
* Python machine state is passed explicitly; every Python `list.append` is a
  functional `++ [x]`.
* Optional Python attributes are `Option`; Python truthiness of an optional
  string (`if x:`) is `pyTruthy` (absent or empty string is falsy).
* `json.loads` is embedded as the executable recursive-descent parser
  `pyJsonLoads` over a `PyVal` model of Python data.  Error strings are
  abstracted (the Python library attaches line/column positions); the
  *success/failure* behaviour follows the `json` grammar, including the
  rejection of the empty string and of trailing data.
* Python `repr` of strings is `pyReprStr` (quote selection and
  backslash/quote/control-character escaping as in CPython); `str()` of a
  tuple, which the source produces in its argument-parse-failure branch,
  is embedded by `parseFailContent`.
* The injected tool executor (`call_tool_func`) is a parameter of type
  `String → PyVal → Except String String`; a `.error` result models a raised
  exception (its detail string abstracts `str(e)`).
* The async generator's `yield`s are collected as a list of events; each
  event is the single key/value pair of the yielded dict.
-/

/-- Cumulative token usage (`self.token_usage_total`, lines 17-21) and the
per-round `CompletionUsage` deltas.  Python integers are modelled as `Int`. -/
structure Usage where
  prompt_tokens : Int := 0
  completion_tokens : Int := 0
  total_tokens : Int := 0
deriving DecidableEq, Repr

/-- `update_total_token_usage` (lines 28-32): field-wise addition of one
usage report into the running totals. -/
def update_total_token_usage (total u : Usage) : Usage :=
  { prompt_tokens := total.prompt_tokens + u.prompt_tokens,
    completion_tokens := total.completion_tokens + u.completion_tokens,
    total_tokens := total.total_tokens + u.total_tokens }

/-- The inner `function` dict of a reconstructed tool-call record
(initialised `{"name": None, "arguments": ""}`, line 158). -/
structure ToolCallFunction where
  name : Option String := none
  arguments : String := ""
deriving DecidableEq, Repr

/-- One reconstructed tool-call record
(`{"id": None, "type": "function", "function": {...}}`, lines 155-159). -/
structure ToolCallRec where
  id : Option String := none
  type : String := "function"
  function : ToolCallFunction := {}
deriving DecidableEq, Repr

/-- A conversation message.  `role` is a string as in the source; `content`,
`tool_calls` and `tool_call_id` are present only when the corresponding dict
key was set.  `pfx` models the `"prefix": True` key that
`send_messages_stream` puts on its assistant messages (line 78). -/
structure Message where
  role : String
  content : Option String := none
  tool_calls : Option (List ToolCallRec) := none
  tool_call_id : Option String := none
  pfx : Bool := false
deriving DecidableEq, Repr

/-- The `function` part of a streamed tool-call delta: both fields optional. -/
structure FnDelta where
  name : Option String := none
  arguments : Option String := none
deriving DecidableEq, Repr

/-- One streamed tool-call fragment (`tool_call_delta`, lines 150-180):
addressed to one `index`, optionally carrying an id and a `function` part. -/
structure ToolCallDelta where
  index : Nat
  id : Option String := none
  function : Option FnDelta := none
deriving DecidableEq, Repr

/-- One streamed `delta` of the tool-call loop (lines 140-180). -/
structure Delta where
  reasoning_content : Option String := none
  content : Option String := none
  tool_calls : List ToolCallDelta := []
deriving DecidableEq, Repr

/-- One chunk of the tool-call stream: either the final usage report or a
delta (lines 135-140).  Per the wire protocol a chunk carries one or the
other, matching the `if chunk.usage / else` routing of the source. -/
inductive RoundChunk where
  | usage (u : Usage)
  | delta (d : Delta)
deriving DecidableEq, Repr

/-- Python truthiness of an optional string: `None` and `""` are falsy. -/
def pyTruthy : Option String → Bool
  | some s => s ≠ ""
  | none => false

/-- Python `str.strip()` (whitespace characters, used only via `≠ ""`). -/
def pyIsSpace (c : Char) : Bool :=
  c == ' ' || c == '\t' || c == '\n' || c == '\r' ||
    c == Char.ofNat 11 || c == Char.ofNat 12

/-- Python `s.strip()`: drop leading and trailing whitespace. -/
def pyStrip (s : String) : String :=
  String.mk (((s.data.dropWhile pyIsSpace).reverse.dropWhile pyIsSpace).reverse)

/-- `bool(current_round_content and current_round_content.strip())`
(line 204). -/
def hasContentB (s : String) : Bool :=
  (!(s == "")) && (!(pyStrip s == ""))

/-- Concatenation of a list of strings (in list order). -/
def strConcat : List String → String
  | [] => ""
  | s :: t => s ++ strConcat t

/-- The textual content a caller accumulates from the streamed events: the
concatenation of the values of all `"content"`-keyed yields. -/
def contentConcat (evs : List (String × String)) : String :=
  strConcat ((evs.filter (fun e => e.1 == "content")).map (·.2))

/-! ## Tool-call aggregator (`tool_call_deltas_by_index`, lines 130, 149-190)

The Python dict keyed by fragment index is an insertion-ordered association
list; `finalize` (lines 183-190) sorts the keys ascending and reads the
records back out. -/

/-- Dict lookup by key (first entry with that key; keys stay distinct). -/
def lookupKey (k : Nat) : List (Nat × ToolCallRec) → Option ToolCallRec
  | [] => none
  | p :: t => if p.1 = k then some p.2 else lookupKey k t

/-- `index in tool_call_deltas_by_index` (line 153). -/
def containsKey (st : List (Nat × ToolCallRec)) (k : Nat) : Bool :=
  (lookupKey k st).isSome

/-- In-place update of the record stored at key `k`. -/
def updateKey (st : List (Nat × ToolCallRec)) (k : Nat)
    (f : ToolCallRec → ToolCallRec) : List (Nat × ToolCallRec) :=
  st.map (fun p => if p.1 = k then (p.1, f p.2) else p)

/-- The per-fragment update of one in-progress record (lines 162-180): a
truthy id overwrites `id`, a truthy name overwrites `function.name`, truthy
argument text is appended to `function.arguments`. -/
def applyDeltaToRec (d : ToolCallDelta) (r : ToolCallRec) : ToolCallRec :=
  let r := if pyTruthy d.id then { r with id := d.id } else r
  match d.function with
  | none => r
  | some f =>
    let r := if pyTruthy f.name then
      { r with function := { r.function with name := f.name } } else r
    if pyTruthy f.arguments then
      { r with function := { r.function with
          arguments := r.function.arguments ++ f.arguments.getD "" } }
    else r

/-- Processing of one streamed tool-call fragment (lines 150-180): create the
entry at `d.index` if absent, then apply the fragment's updates. -/
def applyToolCallDelta (st : List (Nat × ToolCallRec)) (d : ToolCallDelta) :
    List (Nat × ToolCallRec) :=
  let st := if containsKey st d.index then st
    else st ++ [(d.index, ({} : ToolCallRec))]
  updateKey st d.index (applyDeltaToRec d)

/-- Insertion into a `≤`-sorted list of keys. -/
def insertNat (n : Nat) : List Nat → List Nat
  | [] => [n]
  | m :: ms => if n ≤ m then n :: m :: ms else m :: insertNat n ms

/-- `sorted(...)` over the dict's integer keys (line 185). -/
def sortNat : List Nat → List Nat
  | [] => []
  | n :: ns => insertNat n (sortNat ns)

/-- `finalize` (lines 183-190): read the records back out in ascending key
order, keeping their keys for specification purposes. -/
def finalizeAgg (st : List (Nat × ToolCallRec)) : List (Nat × ToolCallRec) :=
  (sortNat (st.map (·.1))).filterMap (fun k => (lookupKey k st).map ((k, ·)))

/-- The argument texts that arrived for index `k`, in arrival order: every
fragment addressed to `k` whose `function` part carries an `arguments`
field contributes its text. -/
def argTextsFor (ds : List ToolCallDelta) (k : Nat) : List String :=
  ds.filterMap (fun d =>
    if d.index = k then d.function.bind (·.arguments) else none)

/-! ## Python data values and `json.loads` -/

/-- The Python values that `json.loads` can produce.  Numeric literals are
kept as their source text (the claims never depend on numeric semantics). -/
inductive PyVal where
  | null
  | bool (b : Bool)
  | num (lit : String)
  | str (s : String)
  | list (items : List PyVal)
  | dict (items : List (String × PyVal))

/-- The double-quote character. -/
def dq : Char := Char.ofNat 34

/-- The single-quote character. -/
def squo : Char := Char.ofNat 39

/-- The opening curly brace character. -/
def lbrace : Char := Char.ofNat 123

/-- The closing curly brace character. -/
def rbrace : Char := Char.ofNat 125

/-- Hex digit (lowercase), for `\xNN` escapes. -/
def hexDig (n : Nat) : Char :=
  if n < 10 then Char.ofNat (48 + n) else Char.ofNat (87 + n)

/-- Two-digit lowercase hex of a byte value. -/
def hexByte (n : Nat) : String :=
  String.mk [hexDig (n / 16 % 16), hexDig (n % 16)]

/-- One character of CPython string `repr` output, given the chosen quote. -/
def pyReprEscapeChar (q : Char) (c : Char) : String :=
  if c = '\\' then "\\\\"
  else if c = q then String.mk ['\\', q]
  else if c = '\n' then "\\n"
  else if c = '\r' then "\\r"
  else if c = '\t' then "\\t"
  else if c.toNat < 32 || c.toNat = 127 then "\\x" ++ hexByte c.toNat
  else String.mk [c]

/-- CPython `repr` of a string: single quotes unless the string contains a
single quote and no double quote, escaping as in `pyReprEscapeChar`. -/
def pyReprStr (s : String) : String :=
  let q := if s.data.contains squo && !(s.data.contains dq) then dq else squo
  String.mk [q] ++ strConcat (s.data.map (pyReprEscapeChar q)) ++ String.mk [q]

/-- JSON whitespace accepted between tokens by `json.loads`. -/
def isJsonWs (c : Char) : Bool :=
  c == ' ' || c == '\t' || c == '\n' || c == '\r'

/-- Hex digit value, for `\uXXXX` string escapes. -/
def hexVal (c : Char) : Option Nat :=
  if 48 ≤ c.toNat && c.toNat ≤ 57 then some (c.toNat - 48)
  else if 97 ≤ c.toNat && c.toNat ≤ 102 then some (c.toNat - 87)
  else if 65 ≤ c.toNat && c.toNat ≤ 70 then some (c.toNat - 55)
  else none

/-- Body of a JSON string literal (after the opening quote). -/
def parseJStr : Nat → List Char → Except String (String × List Char)
  | 0, _ => .error "Unterminated string"
  | n + 1, cs =>
    match cs with
    | [] => .error "Unterminated string"
    | c :: rest =>
      if c = dq then .ok ("", rest)
      else if c = '\\' then
        match rest with
        | [] => .error "Unterminated string"
        | e :: rest2 =>
          let cont := fun (ch : Char) (rs : List Char) =>
            match parseJStr n rs with
            | .ok (s, r) => .ok (String.mk [ch] ++ s, r)
            | .error msg => .error msg
          if e = dq then cont dq rest2
          else if e = '\\' then cont '\\' rest2
          else if e = '/' then cont '/' rest2
          else if e = 'b' then cont (Char.ofNat 8) rest2
          else if e = 'f' then cont (Char.ofNat 12) rest2
          else if e = 'n' then cont '\n' rest2
          else if e = 'r' then cont '\r' rest2
          else if e = 't' then cont '\t' rest2
          else if e = 'u' then
            match rest2 with
            | a :: b :: c2 :: d :: rest3 =>
              match hexVal a, hexVal b, hexVal c2, hexVal d with
              | some x, some y, some z, some w =>
                cont (Char.ofNat (((x * 16 + y) * 16 + z) * 16 + w)) rest3
              | _, _, _, _ => .error "Invalid hex escape"
            | _ => .error "Invalid hex escape"
          else .error "Invalid escape"
      else if c.toNat < 32 then .error "Invalid control character"
      else
        match parseJStr n rest with
        | .ok (s, r) => .ok (String.mk [c] ++ s, r)
        | .error msg => .error msg

/-- Greedy span of decimal digits. -/
def spanDigits (cs : List Char) : List Char × List Char :=
  (cs.takeWhile Char.isDigit, cs.dropWhile Char.isDigit)

/-- Optional fraction part of a JSON number. -/
def parseJFrac (cs : List Char) : Except String (String × List Char) :=
  match cs with
  | '.' :: t =>
    match spanDigits t with
    | ([], _) => .error "Expecting value"
    | (ds, r) => .ok ("." ++ String.mk ds, r)
  | _ => .ok ("", cs)

/-- Optional exponent part of a JSON number. -/
def parseJExp (cs : List Char) : Except String (String × List Char) :=
  match cs with
  | c :: t =>
    if c = 'e' || c = 'E' then
      let (sgn, t2) := match t with
        | s :: t2 => if s = '+' || s = '-' then (String.mk [s], t2) else ("", t)
        | [] => ("", t)
      match spanDigits t2 with
      | ([], _) => .error "Expecting value"
      | (ds, r) => .ok (String.mk [c] ++ sgn ++ String.mk ds, r)
    else .ok ("", cs)
  | [] => .ok ("", cs)

/-- JSON number literal (kept as text), enforcing the no-leading-zero rule. -/
def parseJNum (cs : List Char) : Except String (String × List Char) :=
  let (neg, cs1) : String × List Char :=
    match cs with
    | c :: t => if c = '-' then ("-", t) else ("", cs)
    | [] => ("", cs)
  match cs1 with
  | [] => .error "Expecting value"
  | c :: t =>
    let intPart : Except String (String × List Char) :=
      if c = '0' then .ok ("0", t)
      else if c.isDigit then
        match spanDigits (c :: t) with
        | (ds, r) => .ok (String.mk ds, r)
      else .error "Expecting value"
    match intPart with
    | .error e => .error e
    | .ok (ip, r1) =>
      match parseJFrac r1 with
      | .error e => .error e
      | .ok (fp, r2) =>
        match parseJExp r2 with
        | .error e => .error e
        | .ok (ep, r3) => .ok (neg ++ ip ++ fp ++ ep, r3)

/-- Expect the given literal characters (tails of `null`/`true`/`false`). -/
def expectLit (lit : List Char) (v : PyVal) (cs : List Char) :
    Except String (PyVal × List Char) :=
  if cs.take lit.length = lit then .ok (v, cs.drop lit.length)
  else .error "Expecting value"

/-- Python dict insertion: a repeated key overwrites in place. -/
def objInsert (kvs : List (String × PyVal)) (k : String) (v : PyVal) :
    List (String × PyVal) :=
  if kvs.any (fun p => p.1 == k) then
    kvs.map (fun p => if p.1 = k then (k, v) else p)
  else kvs ++ [(k, v)]

mutual

/-- JSON value parser (fuelled recursive descent mirroring `json.loads`). -/
def parseJVal : Nat → List Char → Except String (PyVal × List Char)
  | 0, _ => .error "Expecting value"
  | n + 1, cs0 =>
    let cs := cs0.dropWhile isJsonWs
    match cs with
    | [] => .error "Expecting value"
    | c :: rest =>
      if c = dq then
        match parseJStr (rest.length + 1) rest with
        | .ok (s, r) => .ok (.str s, r)
        | .error e => .error e
      else if c = '[' then
        let r := rest.dropWhile isJsonWs
        match r with
        | ']' :: r2 => .ok (.list [], r2)
        | _ => parseJArrItems n r []
      else if c = lbrace then
        let r := rest.dropWhile isJsonWs
        match r with
        | c2 :: r2 => if c2 = rbrace then .ok (.dict [], r2)
                      else parseJObjItems n r []
        | [] => .error "Expecting property name"
      else if c = 'n' then expectLit ['u', 'l', 'l'] .null rest
      else if c = 't' then expectLit ['r', 'u', 'e'] (.bool true) rest
      else if c = 'f' then expectLit ['a', 'l', 's', 'e'] (.bool false) rest
      else if c = '-' || c.isDigit then
        match parseJNum (c :: rest) with
        | .ok (lit, r) => .ok (.num lit, r)
        | .error e => .error e
      else .error "Expecting value"

/-- Elements of a JSON array after the opening bracket. -/
def parseJArrItems : Nat → List Char → List PyVal →
    Except String (PyVal × List Char)
  | 0, _, _ => .error "Expecting value"
  | n + 1, cs, acc =>
    match parseJVal n cs with
    | .error e => .error e
    | .ok (v, r) =>
      let r := r.dropWhile isJsonWs
      match r with
      | ',' :: r2 => parseJArrItems n r2 (acc ++ [v])
      | ']' :: r2 => .ok (.list (acc ++ [v]), r2)
      | _ => .error "Expecting comma delimiter"

/-- Members of a JSON object after the opening brace. -/
def parseJObjItems : Nat → List Char → List (String × PyVal) →
    Except String (PyVal × List Char)
  | 0, _, _ => .error "Expecting value"
  | n + 1, cs, acc =>
    let cs := cs.dropWhile isJsonWs
    match cs with
    | [] => .error "Expecting property name"
    | c :: rest =>
      if c = dq then
        match parseJStr (rest.length + 1) rest with
        | .error e => .error e
        | .ok (k, r) =>
          let r := r.dropWhile isJsonWs
          match r with
          | ':' :: r2 =>
            match parseJVal n r2 with
            | .error e => .error e
            | .ok (v, r3) =>
              let acc2 := objInsert acc k v
              let r3 := r3.dropWhile isJsonWs
              match r3 with
              | ',' :: r4 => parseJObjItems n r4 acc2
              | c2 :: r4 =>
                if c2 = rbrace then .ok (.dict acc2, r4)
                else .error "Expecting comma delimiter"
              | [] => .error "Expecting comma delimiter"
          | _ => .error "Expecting colon delimiter"
      else .error "Expecting property name"

end

/-- `json.loads` on a whole string: one value, optionally surrounded by
whitespace; anything left over is an error, as is the empty input. -/
def pyJsonLoads (s : String) : Except String PyVal :=
  match parseJVal (2 * s.length + 2) s.data with
  | .error e => .error e
  | .ok (v, r) =>
    if (r.dropWhile isJsonWs).isEmpty then .ok v else .error "Extra data"

mutual

/-- CPython `repr` of a parsed JSON value. -/
def pyReprOfVal : PyVal → String
  | .null => "None"
  | .bool true => "True"
  | .bool false => "False"
  | .num lit => lit
  | .str s => pyReprStr s
  | .list items => "[" ++ pyReprListOfVals items ++ "]"
  | .dict items =>
    String.mk [lbrace] ++ pyReprDictItems items ++ String.mk [rbrace]

/-- Comma-separated `repr`s of list elements. -/
def pyReprListOfVals : List PyVal → String
  | [] => ""
  | [v] => pyReprOfVal v
  | v :: rest => pyReprOfVal v ++ ", " ++ pyReprListOfVals rest

/-- Comma-separated `repr`s of dict items. -/
def pyReprDictItems : List (String × PyVal) → String
  | [] => ""
  | [(k, v)] => pyReprStr k ++ ": " ++ pyReprOfVal v
  | (k, v) :: rest =>
    pyReprStr k ++ ": " ++ pyReprOfVal v ++ ", " ++ pyReprDictItems rest

end

/-- Python `str()` of a parsed JSON value (`str` on a string is itself;
containers and the rest print as their `repr`). -/
def pyStrOfVal : PyVal → String
  | .str s => s
  | v => pyReprOfVal v

/-- Python `parsed_arguments[arg]`: dict lookup raising `KeyError` for a
missing key and `TypeError` for non-dict values (detail strings abstract
`str(e)` of the exception). -/
def pyGetItem (v : PyVal) (k : String) : Except String PyVal :=
  match v with
  | .dict kvs =>
    match kvs.find? (fun p => p.1 == k) with
    | some p => .ok p.2
    | none => .error ("KeyError: " ++ pyReprStr k)
  | _ => .error "TypeError: value is not subscriptable by string"

/-- The `for arg in tool_argument_to_show: yield {arg: ...}` loop
(lines 276-277): yields one event per argument until a lookup raises; the
first failure is the raised exception. -/
def showArgEvents : List String → PyVal → List (String × String) × Except String Unit
  | [], _ => ([], .ok ())
  | a :: as, v =>
    match pyGetItem v a with
    | .error e => ([], .error e)
    | .ok x =>
      let (evs, r) := showArgEvents as v
      ((a, "\n\n" ++ pyStrOfVal x ++ "\n\n") :: evs, r)

/-! ## Round executor (lines 235-315) -/

/-- First position of an equal element (`list.index`, line 249).  Python
raises when the element is absent; in the source the element is always a
member, and the model returns the list length in the impossible case. -/
def firstIdxOf : List ToolCallRec → ToolCallRec → Nat
  | [], _ => 0
  | x :: t, r => if x = r then 0 else firstIdxOf t r + 1

/-- The fixed diagnostic for a malformed record (lines 258-261). -/
def malformedContent : String :=
  "Error: Tool call information was incomplete (ID or name missing). Cannot execute."

/-- The `%s` template of the argument-parse-failure tuple (lines 288-290);
the source never applies the `%` operator to it. -/
def parseFailTemplate : String :=
  "Error: Tool %s arguments were not valid JSON. Error: %s. Arguments received: %s"

/-- CPython `repr` of the caught `json.JSONDecodeError`. -/
def jsonErrorRepr (e : String) : String :=
  "JSONDecodeError(" ++ pyReprStr e ++ ")"

/-- `str(tool_result)` in the argument-parse-failure branch: the `str` of
the 4-tuple `(template, tool_name, exception, arguments_str)` that the
source assigns instead of a formatted string (lines 288-294). -/
def parseFailContent (n e s : String) : String :=
  "(" ++ pyReprStr parseFailTemplate ++ ", " ++ pyReprStr n ++ ", " ++
    jsonErrorRepr e ++ ", " ++ pyReprStr s ++ ")"

/-- The execution-failure message (lines 302-305): tool name, error detail
and the retry instruction. -/
def execFailContent (n e : String) : String :=
  "Error: Tool " ++ n ++ " execution failed. Details: " ++ e ++
    "\n请调整工具的参数，重新执行"

/-- Processing of one reconstructed tool-call record by the round executor
(lines 235-315).  `allRecs` is `assistant_tool_calls_reconstructed` (used
for the placeholder id of a malformed record); the result is the appended
`tool` message, the yielded events, and the executor invocations made. -/
def execOneToolCall (ct : String → PyVal → Except String String)
    (sa : List String) (allRecs : List ToolCallRec) (r : ToolCallRec) :
    Message × List (String × String) × List (String × PyVal) :=
  let tool_call_id := r.id
  let tool_name := r.function.name
  let arguments_str := r.function.arguments
  if !(pyTruthy tool_call_id && pyTruthy tool_name) then
    let tid := if !(pyTruthy tool_call_id) then
        "unknown_id_for_index_" ++ toString (firstIdxOf allRecs r)
      else tool_call_id.getD ""
    ({ role := "tool", tool_call_id := some tid, content := some malformedContent },
      [("tool_call", "工具调用失败，参数格式不正确")], [])
  else
    let n := tool_name.getD ""
    let i := tool_call_id.getD ""
    match pyJsonLoads arguments_str with
    | .error e =>
      let res := parseFailContent n e arguments_str
      ({ role := "tool", tool_call_id := some i, content := some res },
        [("tool_call", "工具执行结果" ++ res), ("content", "\n\n")], [])
    | .ok v =>
      let (sevs, sres) := showArgEvents sa v
      match sres with
      | .error e =>
        let res := execFailContent n e
        ({ role := "tool", tool_call_id := some i, content := some res },
          sevs ++ [("tool_call", "工具执行结果" ++ res), ("content", "\n\n")], [])
      | .ok _ =>
        match ct n v with
        | .error e =>
          let res := execFailContent n e
          ({ role := "tool", tool_call_id := some i, content := some res },
            sevs ++ [("tool_call", "工具执行结果" ++ res), ("content", "\n\n")],
            [(n, v)])
        | .ok res =>
          ({ role := "tool", tool_call_id := some i, content := some res },
            sevs ++ [("tool_call", "工具执行结果" ++ res), ("content", "\n\n")],
            [(n, v)])

/-- The whole `for tool_call_obj in assistant_tool_calls_reconstructed` loop
(lines 235-315): accumulated appended messages, yielded events and executor
invocations, in record order. -/
def execToolCalls (ct : String → PyVal → Except String String)
    (sa : List String) (recs : List ToolCallRec) :
    List Message × List (String × String) × List (String × PyVal) :=
  recs.foldl (fun acc r =>
    let o := execOneToolCall ct sa recs r
    (acc.1 ++ [o.1], acc.2.1 ++ o.2.1, acc.2.2 ++ o.2.2)) ([], [], [])

/-! ## Streaming one round (lines 128-180) -/

/-- Per-round streaming state: usage totals, `current_round_content`,
`tool_call_deltas_by_index`, and the events yielded so far. -/
structure RoundState where
  usage : Usage
  content : String := ""
  agg : List (Nat × ToolCallRec) := []
  events : List (String × String) := []

/-- The events yielded while processing one tool-call fragment
(lines 166-177): the tool name (decorated) and the raw argument text,
each only when truthy. -/
def toolDeltaEvents (d : ToolCallDelta) : List (String × String) :=
  match d.function with
  | none => []
  | some f =>
    (if pyTruthy f.name then
      [("tool_call", "\n调用工具" ++ f.name.getD "" ++ "\n\n")] else []) ++
    (if pyTruthy f.arguments then [("tool_call", f.arguments.getD "")] else [])

/-- Processing of one streamed chunk (lines 132-180). -/
def streamStep (st : RoundState) (c : RoundChunk) : RoundState :=
  match c with
  | .usage u => { st with usage := update_total_token_usage st.usage u }
  | .delta d =>
    let evs1 := match d.reasoning_content with
      | some s => [("reasoning_content", s)]
      | none => []
    let (content2, evs2) :=
      if pyTruthy d.content then
        (st.content ++ d.content.getD "", [("content", d.content.getD "")])
      else (st.content, ([] : List (String × String)))
    let evs3 := (d.tool_calls.map toolDeltaEvents).flatten
    let agg2 := d.tool_calls.foldl applyToolCallDelta st.agg
    { usage := st.usage, content := content2, agg := agg2,
      events := st.events ++ evs1 ++ evs2 ++ evs3 }

/-- The whole `for chunk in response` loop. -/
def runStream (st : RoundState) (chunks : List RoundChunk) : RoundState :=
  chunks.foldl streamStep st

/-- Fresh per-round streaming state (lines 128-130). -/
def initRound (u : Usage) : RoundState :=
  { usage := u, content := "", agg := [], events := [] }

/-- The content contributed by one chunk. -/
def chunkContent : RoundChunk → String
  | .usage _ => ""
  | .delta d => if pyTruthy d.content then d.content.getD "" else ""

/-- The events contributed by one chunk. -/
def chunkEvents : RoundChunk → List (String × String)
  | .usage _ => []
  | .delta d =>
    (match d.reasoning_content with
      | some s => [("reasoning_content", s)]
      | none => []) ++
    (if pyTruthy d.content then [("content", d.content.getD "")] else []) ++
    (d.tool_calls.map toolDeltaEvents).flatten

/-- The tool-call fragments contained in one chunk. -/
def chunkToolDeltas : RoundChunk → List ToolCallDelta
  | .usage _ => []
  | .delta d => d.tool_calls

/-- The usage reports contained in one chunk. -/
def chunkUsages : RoundChunk → List Usage
  | .usage u => [u]
  | .delta _ => []

/-- All tool-call fragments of a round's stream, in arrival order. -/
def toolDeltasOf : List RoundChunk → List ToolCallDelta
  | [] => []
  | c :: t => chunkToolDeltas c ++ toolDeltasOf t

/-- A round's accumulated `current_round_content`. -/
def roundContent (chunks : List RoundChunk) : String :=
  (runStream (initRound {}) chunks).content

/-- A round's final `tool_call_deltas_by_index`. -/
def roundAgg (chunks : List RoundChunk) : List (Nat × ToolCallRec) :=
  (runStream (initRound {}) chunks).agg

/-- A round's stream events. -/
def roundEvents (chunks : List RoundChunk) : List (String × String) :=
  (runStream (initRound {}) chunks).events

/-- A round's `assistant_tool_calls_reconstructed` (lines 183-190). -/
def roundRecs (chunks : List RoundChunk) : List ToolCallRec :=
  (finalizeAgg (roundAgg chunks)).map (·.2)

/-! ## Conversation loop (lines 111-317) -/

/-- State owned by one `send_messages_stream_with_tool_call` call:
the working message list, the client's usage totals, all yielded events and
the `content_all` accumulator. -/
structure LoopSt where
  messages : List Message
  usage : Usage
  events : List (String × String) := []
  contentAll : String := ""
deriving Repr

/-- How one round ended: neither content nor tool calls (lines 215-223),
no tool calls (lines 226-230), or tool calls executed (lines 233-317). -/
inductive RoundExit where
  | aborted
  | finished
  | moreTools
deriving DecidableEq, Repr

/-- The assistant message built for a round (lines 202-211). -/
def assistantMsgOf (chunks : List RoundChunk) : Message :=
  { role := "assistant",
    content := if hasContentB (roundContent chunks) then
        some (roundContent chunks) else none,
    tool_calls := if roundRecs chunks ≠ [] then some (roundRecs chunks) else none }

/-- One iteration of the `while True` loop (lines 111-317): stream the
response, build the assistant message, and either abort, finish, or execute
the round's tool calls. -/
def runRound (ct : String → PyVal → Except String String) (sa : List String)
    (st : LoopSt) (chunks : List RoundChunk) : LoopSt × RoundExit :=
  let rs := runStream (initRound st.usage) chunks
  let recs := (finalizeAgg rs.agg).map (·.2)
  let has_content := hasContentB rs.content
  let has_tool_calls := !recs.isEmpty
  let amsg : Message :=
    { role := "assistant",
      content := if has_content then some rs.content else none,
      tool_calls := if has_tool_calls then some recs else none }
  if has_content || has_tool_calls then
    if has_tool_calls then
      let o := execToolCalls ct sa recs
      ({ messages := st.messages ++ [amsg] ++ o.1,
         usage := rs.usage,
         events := st.events ++ rs.events ++
           [("tool_call", "\n\n正在执行相关工具\n\n")] ++ o.2.1,
         contentAll := st.contentAll }, .moreTools)
    else
      ({ messages := st.messages ++ [amsg],
         usage := rs.usage,
         events := st.events ++ rs.events,
         contentAll := st.contentAll ++ rs.content }, .finished)
  else
    ({ messages := st.messages,
       usage := rs.usage,
       events := st.events ++ rs.events,
       contentAll := st.contentAll ++ rs.content }, .aborted)

/-- How the conversation ended.  `outOfStream` is the model artifact for a
run whose provided per-round streams were exhausted while the loop still
wanted another round. -/
inductive LoopOutcome where
  | done
  | abortedEmpty
  | outOfStream
deriving DecidableEq, Repr

/-- Result of a conversation run. -/
structure LoopResult where
  state : LoopSt
  outcome : LoopOutcome
deriving Repr

/-- The `while True` loop, driven by one streamed response per round. -/
def runLoop (ct : String → PyVal → Except String String) (sa : List String) :
    List (List RoundChunk) → LoopSt → LoopResult
  | [], st => ⟨st, .outOfStream⟩
  | r :: rest, st =>
    match runRound ct sa st r with
    | (st2, .aborted) => ⟨st2, .abortedEmpty⟩
    | (st2, .finished) => ⟨st2, .done⟩
    | (st2, .moreTools) => runLoop ct sa rest st2

/-- Python `list.copy()`: a new list with the same elements. -/
def pyListCopy {α : Type} (l : List α) : List α := l

/-- The initial loop state: `messages = messages_.copy()` (line 109), with
the client's current usage totals. -/
def initLoopSt (messages_ : List Message) (u0 : Usage) : LoopSt :=
  { messages := pyListCopy messages_, usage := u0, events := [], contentAll := "" }

/-- `send_messages_stream_with_tool_call` (lines 83-317).  The first
component of the result is the caller's `messages_` list as observable after
the call (the function only ever appends to its private copy). -/
def send_messages_stream_with_tool_call (messages_ : List Message)
    (ct : String → PyVal → Except String String) (sa : List String)
    (rounds : List (List RoundChunk)) (u0 : Usage) :
    List Message × LoopResult :=
  (messages_, runLoop ct sa rounds (initLoopSt messages_ u0))

/-! ## The plain streaming call `send_messages_stream` (lines 34-81) -/

/-- One chunk of the plain stream: a usage report, a choice-bearing chunk
(first choice's optional content delta and finish reason), or a chunk with
an empty `choices` list (guarded out by `if chunk.choices`). -/
inductive SChunk where
  | usage (u : Usage)
  | choice (content : Option String) (finish : Option String)
  | noChoices
deriving DecidableEq, Repr

/-- State of one `send_messages_stream` call. -/
structure PlainState where
  messages : List Message
  full : String := ""
  finish : String := "length"
  usage : Usage := {}
  yielded : List String := []
deriving Repr

/-- Processing of one plain-stream chunk (lines 62-75).  Note the content
test is `is not None` (an empty string is still yielded and appended) while
the finish reason is tested for truthiness. -/
def plainStep (st : PlainState) (c : SChunk) : PlainState :=
  match c with
  | .usage u => { st with usage := update_total_token_usage st.usage u }
  | .noChoices => st
  | .choice ct fr =>
    let st := match ct with
      | some s => { st with full := st.full ++ s, yielded := st.yielded ++ [s] }
      | none => st
    match fr with
    | some f => if f ≠ "" then { st with finish := f } else st
    | none => st

/-- One iteration of the retry loop (lines 52-79): consume the response,
then append the accumulated text as an assistant message with the
`"prefix": True` marker. -/
def plainRound (st : PlainState) (chunks : List SChunk) : PlainState :=
  let st2 := chunks.foldl plainStep st
  { st2 with messages := st2.messages ++
      [{ role := "assistant", content := some st2.full, pfx := true }] }

/-- The `while finish_reason != "stop" or full_response == ""` loop, driven
by one response per iteration. -/
def runPlainLoop : List (List SChunk) → PlainState → PlainState
  | [], st => st
  | resp :: rest, st =>
    if st.finish ≠ "stop" ∨ st.full = "" then
      runPlainLoop rest (plainRound st resp)
    else st

/-- `send_messages_stream` (lines 34-81), same result convention as the
tool-call variant: the caller's list, and the final internal state. -/
def send_messages_stream (messages_ : List Message)
    (responses : List (List SChunk)) (u0 : Usage) :
    List Message × PlainState :=
  (messages_, runPlainLoop responses
    { messages := pyListCopy messages_, full := "", finish := "length",
      usage := u0, yielded := [] })

/-! ## Concrete fixtures used by closed statements -/

/-- A concrete executor that always succeeds, echoing the tool name. -/
def exEcho : String → PyVal → Except String String :=
  fun n _ => .ok ("ok:" ++ n)

/-- A concrete executor that always raises. -/
def exBoom : String → PyVal → Except String String :=
  fun _ _ => .error "boom"

/-- A well-formed record whose argument text is a single newline: invalid
JSON containing a character that `repr` escapes. -/
def c4rec : ToolCallRec :=
  { id := some "call_1",
    function := { name := some "get_tree_structure", arguments := "\n" } }

/-- Content of a whole chunk list (specification form of `roundContent`). -/
def chunksContent : List RoundChunk → String
  | [] => ""
  | c :: t => chunkContent c ++ chunksContent t

/-- Events of a whole chunk list (specification form of `roundEvents`). -/
def chunksEvents : List RoundChunk → List (String × String)
  | [] => []
  | c :: t => chunkEvents c ++ chunksEvents t


/-- Witness fixture: a fully-formed record with empty-object arguments. -/
def recW : ToolCallRec :=
  { id := some "call_7", function := { name := some "t", arguments := "\x7b\x7d" } }

/-- Witness fixture: one round streaming `recW` in a single fragment. -/
def chunksW : List RoundChunk :=
  [RoundChunk.delta
    { tool_calls :=
        [{ index := 0, id := some "call_7",
           function := some { name := some "t", arguments := some "\x7b\x7d" } }] }]

/-- Witness fixture: an empty loop state. -/
def stW : LoopSt := { messages := [], usage := {} }

/-- Witness fixture: a well-formed record handed to a raising executor. -/
def recBoom : ToolCallRec :=
  { id := some "call_1", function := { name := some "demo_tool", arguments := "\x7b\x7d" } }

/-- Witness fixture: a record with id and name but no argument fragments. -/
def recNoArgs : ToolCallRec :=
  { id := some "call_9", function := { name := some "get_file", arguments := "" } }

/-- Witness fixture: a round that streams only whitespace content. -/
def chunksBlank : List RoundChunk :=
  [RoundChunk.delta { content := some " " }]

/-- Witness fixture: a round that streams plain content and no tool calls. -/
def chunksHi : List RoundChunk :=
  [RoundChunk.delta { content := some "hi" }]

/-! ## Lemmas: strings, dictionary and aggregator -/

theorem pyTruthy_none : pyTruthy none = false := rfl

theorem pyTruthy_some_empty : pyTruthy (some "") = false := by decide

theorem strConcat_append (l1 l2 : List String) :
    strConcat (l1 ++ l2) = strConcat l1 ++ strConcat l2 := by
  induction l1 with
  | nil => simp [strConcat]
  | cons s t ih => simp [strConcat, ih, String.append_assoc]

theorem contentConcat_append (l1 l2 : List (String × String)) :
    contentConcat (l1 ++ l2) = contentConcat l1 ++ contentConcat l2 := by
  simp [contentConcat, List.filter_append, strConcat_append]

theorem lookupKey_updateKey_self (st : List (Nat × ToolCallRec)) (k : Nat)
    (f : ToolCallRec → ToolCallRec) :
    lookupKey k (updateKey st k f) = (lookupKey k st).map f := by
  induction st with
  | nil => simp [lookupKey, updateKey]
  | cons p t ih =>
    by_cases h : p.1 = k
    · simp [lookupKey, updateKey, h]
    · simpa [lookupKey, updateKey, h] using ih

theorem lookupKey_updateKey_other (st : List (Nat × ToolCallRec)) (j k : Nat)
    (hjk : j ≠ k) (f : ToolCallRec → ToolCallRec) :
    lookupKey j (updateKey st k f) = lookupKey j st := by
  induction st with
  | nil => simp [lookupKey, updateKey]
  | cons p t ih =>
    have hkj : ¬ (k = j) := fun hc => hjk hc.symm
    by_cases h : p.1 = k
    · have h2 : ¬ p.1 = j := by rw [h]; exact hkj
      simp only [updateKey, List.map_cons, if_pos h, lookupKey]
      simpa [h, hkj, updateKey] using ih
    · by_cases h2 : p.1 = j
      · simp [lookupKey, updateKey, h, h2, hjk]
      · simpa [lookupKey, updateKey, h, h2] using ih

theorem lookupKey_append_single (st : List (Nat × ToolCallRec)) (j k : Nat)
    (r : ToolCallRec) :
    lookupKey k (st ++ [(j, r)]) =
      match lookupKey k st with
      | some x => some x
      | none => if j = k then some r else none := by
  induction st with
  | nil => by_cases h : j = k <;> simp [lookupKey, h]
  | cons p t ih =>
    by_cases h : p.1 = k
    · simp [lookupKey, h]
    · simpa [lookupKey, h] using ih

theorem keys_updateKey (st : List (Nat × ToolCallRec)) (k : Nat)
    (f : ToolCallRec → ToolCallRec) :
    (updateKey st k f).map (·.1) = st.map (·.1) := by
  induction st with
  | nil => simp [updateKey]
  | cons p t ih =>
    by_cases h : p.1 = k <;> simp [updateKey, h] at ih ⊢ <;> exact ih

theorem mem_keys_iff_isSome (st : List (Nat × ToolCallRec)) (k : Nat) :
    k ∈ st.map (·.1) ↔ (lookupKey k st).isSome := by
  induction st with
  | nil => simp [lookupKey]
  | cons p t ih =>
    by_cases h : p.1 = k
    · simp [lookupKey, h]
    · simp only [List.map_cons, List.mem_cons, lookupKey, if_neg h, ih]
      constructor
      · rintro (hc | hm)
        · exact absurd hc.symm h
        · exact hm
      · exact fun hm => Or.inr hm

theorem lookupKey_apply_self (st : List (Nat × ToolCallRec)) (d : ToolCallDelta) :
    lookupKey d.index (applyToolCallDelta st d) =
      some (applyDeltaToRec d ((lookupKey d.index st).getD {})) := by
  unfold applyToolCallDelta
  by_cases h : containsKey st d.index = true
  · rw [if_pos h, lookupKey_updateKey_self]
    unfold containsKey at h
    obtain ⟨r, hr⟩ := Option.isSome_iff_exists.mp h
    simp [hr]
  · rw [if_neg h, lookupKey_updateKey_self, lookupKey_append_single]
    unfold containsKey at h
    have hnone : lookupKey d.index st = none := by
      cases hl : lookupKey d.index st with
      | none => rfl
      | some r => rw [hl] at h; simp at h
    simp [hnone]

theorem lookupKey_apply_other (st : List (Nat × ToolCallRec))
    (d : ToolCallDelta) (k : Nat) (hk : k ≠ d.index) :
    lookupKey k (applyToolCallDelta st d) = lookupKey k st := by
  unfold applyToolCallDelta
  by_cases h : containsKey st d.index = true
  · rw [if_pos h, lookupKey_updateKey_other _ _ _ hk]
  · rw [if_neg h, lookupKey_updateKey_other _ _ _ hk, lookupKey_append_single]
    have h2 : ¬ (d.index = k) := fun hc => hk hc.symm
    cases hl : lookupKey k st <;> simp [hl, h2]

theorem keys_apply (st : List (Nat × ToolCallRec)) (d : ToolCallDelta) :
    (applyToolCallDelta st d).map (·.1) =
      if containsKey st d.index then st.map (·.1)
      else st.map (·.1) ++ [d.index] := by
  unfold applyToolCallDelta
  by_cases h : containsKey st d.index = true
  · rw [if_pos h, if_pos h, keys_updateKey]
  · rw [if_neg h, if_neg h, keys_updateKey]
    simp

theorem nodupKeys_apply (st : List (Nat × ToolCallRec)) (d : ToolCallDelta)
    (h : (st.map (·.1)).Nodup) :
    ((applyToolCallDelta st d).map (·.1)).Nodup := by
  rw [keys_apply]
  by_cases hc : containsKey st d.index = true
  · rwa [if_pos hc]
  · rw [if_neg hc]
    have hnm : d.index ∉ st.map (·.1) := by
      rw [mem_keys_iff_isSome]
      unfold containsKey at hc
      simpa using hc
    rw [List.nodup_append]
    refine ⟨h, List.nodup_singleton _, ?_⟩
    intro a ha hb
    rw [List.mem_singleton] at hb
    subst hb
    exact hnm ha

theorem nodupKeys_foldl (ds : List ToolCallDelta)
    (st : List (Nat × ToolCallRec)) (h : (st.map (·.1)).Nodup) :
    ((ds.foldl applyToolCallDelta st).map (·.1)).Nodup := by
  induction ds generalizing st with
  | nil => simpa using h
  | cons d t ih => exact ih _ (nodupKeys_apply st d h)

theorem arguments_applyDeltaToRec (d : ToolCallDelta) (r : ToolCallRec) :
    (applyDeltaToRec d r).function.arguments =
      r.function.arguments ++ ((d.function.bind (·.arguments)).getD "") := by
  unfold applyDeltaToRec
  cases hf : d.function with
  | none => cases hid : pyTruthy d.id <;> simp [hid]
  | some f =>
    cases ha : f.arguments with
    | none =>
      cases hid : pyTruthy d.id <;> cases hn : pyTruthy f.name <;>
        simp [hid, hn, ha, pyTruthy_none]
    | some s =>
      by_cases hs : s = ""
      · subst hs
        cases hid : pyTruthy d.id <;> cases hn : pyTruthy f.name <;>
          simp [hid, hn, ha, pyTruthy_some_empty]
      · have hps : pyTruthy (some s) = true := by simpa [pyTruthy] using hs
        cases hid : pyTruthy d.id <;> cases hn : pyTruthy f.name <;>
          simp [hid, hn, ha, hps]

theorem strConcat_argTexts_cons (d : ToolCallDelta) (ds : List ToolCallDelta)
    (k : Nat) :
    strConcat (argTextsFor (d :: ds) k) =
      (if d.index = k then (d.function.bind (·.arguments)).getD "" else "") ++
        strConcat (argTextsFor ds k) := by
  unfold argTextsFor
  by_cases h : d.index = k
  · cases hb : d.function.bind (·.arguments) with
    | none => simp [List.filterMap_cons, h, hb, strConcat]
    | some s => simp [List.filterMap_cons, h, hb, strConcat]
  · simp [List.filterMap_cons, h]

theorem args_foldl (ds : List ToolCallDelta) (st : List (Nat × ToolCallRec))
    (k : Nat) (r : ToolCallRec)
    (h : lookupKey k (ds.foldl applyToolCallDelta st) = some r) :
    r.function.arguments =
      ((lookupKey k st).getD {}).function.arguments ++
        strConcat (argTextsFor ds k) := by
  induction ds generalizing st with
  | nil =>
    simp only [List.foldl_nil] at h
    simp [h, argTextsFor, strConcat]
  | cons d t ih =>
    simp only [List.foldl_cons] at h
    have step := ih (applyToolCallDelta st d) h
    rw [strConcat_argTexts_cons]
    by_cases hk : d.index = k
    · subst hk
      rw [lookupKey_apply_self] at step
      simp only [Option.getD_some] at step
      rw [step, arguments_applyDeltaToRec]
      simp [String.append_assoc]
    · have hne : k ≠ d.index := fun hc => hk hc.symm
      rw [lookupKey_apply_other _ _ _ hne] at step
      simp [step, hk]

theorem insertNat_perm (n : Nat) (l : List Nat) :
    List.Perm (insertNat n l) (n :: l) := by
  induction l with
  | nil => simp [insertNat]
  | cons m ms ih =>
    by_cases h : n ≤ m
    · simp [insertNat, h]
    · rw [insertNat, if_neg h]
      exact (ih.cons m).trans (List.Perm.swap n m ms)

theorem sortNat_perm (l : List Nat) : List.Perm (sortNat l) l := by
  induction l with
  | nil => simp [sortNat]
  | cons n ns ih =>
    exact (insertNat_perm n (sortNat ns)).trans (ih.cons n)

theorem insertNat_pairwise (n : Nat) (l : List Nat)
    (h : l.Pairwise (· ≤ ·)) : (insertNat n l).Pairwise (· ≤ ·) := by
  induction l with
  | nil => simp [insertNat]
  | cons m ms ih =>
    rcases List.pairwise_cons.mp h with ⟨hm, hms⟩
    by_cases hle : n ≤ m
    · rw [insertNat, if_pos hle]
      refine List.pairwise_cons.mpr ⟨?_, h⟩
      intro x hx
      rcases List.mem_cons.mp hx with hx | hx
      · exact hx ▸ hle
      · exact hle.trans (hm x hx)
    · rw [insertNat, if_neg hle]
      refine List.pairwise_cons.mpr ⟨?_, ih hms⟩
      intro x hx
      rcases List.mem_cons.mp ((insertNat_perm n ms).mem_iff.mp hx) with hx | hx
      · exact hx ▸ Nat.le_of_not_le hle
      · exact hm x hx

theorem sortNat_pairwise (l : List Nat) : (sortNat l).Pairwise (· ≤ ·) := by
  induction l with
  | nil => simp [sortNat]
  | cons n ns ih => exact insertNat_pairwise n (sortNat ns) ih

theorem sortNat_pairwise_lt (l : List Nat) (h : l.Nodup) :
    (sortNat l).Pairwise (· < ·) := by
  have hnd : (sortNat l).Nodup := ((sortNat_perm l).symm.nodup h)
  exact ((sortNat_pairwise l).and hnd).imp
    (fun hx => lt_of_le_of_ne hx.1 hx.2)

theorem filterMap_lookup_map_fst (st : List (Nat × ToolCallRec))
    (ks : List Nat) (h : ∀ k ∈ ks, (lookupKey k st).isSome) :
    ((ks.filterMap (fun k => (lookupKey k st).map ((k, ·)))).map (·.1)) = ks := by
  induction ks with
  | nil => simp
  | cons k t ih =>
    have hk := h k (List.mem_cons_self k t)
    obtain ⟨r, hr⟩ := Option.isSome_iff_exists.mp hk
    rw [List.filterMap_cons, hr]
    simp only [Option.map_some']
    rw [List.map_cons, ih (fun x hx => h x (List.mem_cons_of_mem k hx))]

theorem finalizeAgg_map_fst (st : List (Nat × ToolCallRec)) :
    (finalizeAgg st).map (·.1) = sortNat (st.map (·.1)) := by
  unfold finalizeAgg
  refine filterMap_lookup_map_fst st _ (fun k hk => ?_)
  rw [← mem_keys_iff_isSome]
  exact (sortNat_perm (st.map (·.1))).mem_iff.mp hk

theorem mem_finalizeAgg (st : List (Nat × ToolCallRec)) (k : Nat)
    (r : ToolCallRec) (h : (k, r) ∈ finalizeAgg st) :
    lookupKey k st = some r := by
  unfold finalizeAgg at h
  rcases List.mem_filterMap.mp h with ⟨j, _, hj⟩
  cases hl : lookupKey j st with
  | none => rw [hl] at hj; simp at hj
  | some x =>
    rw [hl] at hj
    simp only [Option.map_some', Option.some_inj] at hj
    cases hj
    exact hl

/-! ## Lemmas: the streamed round -/

theorem streamStep_content (st : RoundState) (c : RoundChunk) :
    (streamStep st c).content = st.content ++ chunkContent c := by
  cases c with
  | usage u => simp [streamStep, chunkContent]
  | delta d =>
    by_cases h : pyTruthy d.content = true <;>
      simp [streamStep, chunkContent, h]

theorem streamStep_events (st : RoundState) (c : RoundChunk) :
    (streamStep st c).events = st.events ++ chunkEvents c := by
  cases c with
  | usage u => simp [streamStep, chunkEvents]
  | delta d =>
    by_cases h : pyTruthy d.content = true <;>
      cases hr : d.reasoning_content <;>
        simp [streamStep, chunkEvents, h, hr]

theorem streamStep_agg (st : RoundState) (c : RoundChunk) :
    (streamStep st c).agg = (chunkToolDeltas c).foldl applyToolCallDelta st.agg := by
  cases c with
  | usage u => simp [streamStep, chunkToolDeltas]
  | delta d =>
    by_cases h : pyTruthy d.content = true <;>
      simp [streamStep, chunkToolDeltas, h]

theorem runStream_content (chunks : List RoundChunk) (st : RoundState) :
    (runStream st chunks).content = st.content ++ chunksContent chunks := by
  induction chunks generalizing st with
  | nil => simp [runStream, chunksContent]
  | cons c t ih =>
    show (runStream (streamStep st c) t).content = _
    rw [ih, streamStep_content, chunksContent, String.append_assoc]

theorem runStream_events (chunks : List RoundChunk) (st : RoundState) :
    (runStream st chunks).events = st.events ++ chunksEvents chunks := by
  induction chunks generalizing st with
  | nil => simp [runStream, chunksEvents]
  | cons c t ih =>
    show (runStream (streamStep st c) t).events = _
    rw [ih, streamStep_events, chunksEvents, List.append_assoc]

theorem runStream_agg (chunks : List RoundChunk) (st : RoundState) :
    (runStream st chunks).agg =
      (toolDeltasOf chunks).foldl applyToolCallDelta st.agg := by
  induction chunks generalizing st with
  | nil => simp [runStream, toolDeltasOf]
  | cons c t ih =>
    show (runStream (streamStep st c) t).agg = _
    rw [ih, streamStep_agg, toolDeltasOf, List.foldl_append]

theorem roundContent_eq (chunks : List RoundChunk) :
    roundContent chunks = chunksContent chunks := by
  unfold roundContent
  rw [runStream_content]
  rfl

theorem roundEvents_eq (chunks : List RoundChunk) :
    roundEvents chunks = chunksEvents chunks := by
  unfold roundEvents
  rw [runStream_events]
  rfl

theorem roundAgg_eq (chunks : List RoundChunk) :
    roundAgg chunks = (toolDeltasOf chunks).foldl applyToolCallDelta [] := by
  unfold roundAgg
  rw [runStream_agg]
  rfl

theorem contentConcat_toolDeltaEvents (d : ToolCallDelta) :
    contentConcat (toolDeltaEvents d) = "" := by
  unfold toolDeltaEvents
  cases hf : d.function with
  | none => rfl
  | some f =>
    cases hn : pyTruthy f.name <;> cases ha : pyTruthy f.arguments <;>
      simp [hn, ha, contentConcat, strConcat]

theorem contentConcat_toolDeltas_flatten (ds : List ToolCallDelta) :
    contentConcat ((ds.map toolDeltaEvents).flatten) = "" := by
  induction ds with
  | nil => rfl
  | cons d t ih =>
    rw [List.map_cons, List.flatten_cons, contentConcat_append,
      contentConcat_toolDeltaEvents, ih]
    rfl

theorem contentConcat_chunkEvents (c : RoundChunk) :
    contentConcat (chunkEvents c) = chunkContent c := by
  cases c with
  | usage u => rfl
  | delta d =>
    rw [chunkEvents, contentConcat_append, contentConcat_append,
      contentConcat_toolDeltas_flatten]
    have hr : contentConcat (match d.reasoning_content with
        | some s => [("reasoning_content", s)]
        | none => []) = "" := by
      cases d.reasoning_content <;> simp [contentConcat, strConcat]
    rw [hr]
    by_cases h : pyTruthy d.content = true <;>
      simp [h, chunkContent, contentConcat, strConcat]

theorem contentConcat_chunksEvents (chunks : List RoundChunk) :
    contentConcat (chunksEvents chunks) = chunksContent chunks := by
  induction chunks with
  | nil => rfl
  | cons c t ih =>
    rw [chunksEvents, chunksContent, contentConcat_append,
      contentConcat_chunkEvents, ih]

theorem contentConcat_roundEvents (chunks : List RoundChunk) :
    contentConcat (roundEvents chunks) = roundContent chunks := by
  rw [roundEvents_eq, roundContent_eq, contentConcat_chunksEvents]

/-! ## Claim C1 -/

/-- C1: for every streamed round (fragments for several calls interleaved
arbitrarily, each fragment addressed to one index), the reconstructed
tool-call records at stream end are ordered strictly by ascending index,
and each record's `arguments` equals the concatenation, in arrival order,
of all argument-text fragments that arrived for that index. -/
theorem aggregator_sorted_and_args_concat (u0 : Usage) (chunks : List RoundChunk) :
    List.Pairwise (· < ·)
      ((finalizeAgg (runStream (initRound u0) chunks).agg).map (·.1)) ∧
    ∀ k r, (k, r) ∈ finalizeAgg (runStream (initRound u0) chunks).agg →
      r.function.arguments = strConcat (argTextsFor (toolDeltasOf chunks) k) := by
  have hagg : (runStream (initRound u0) chunks).agg =
      (toolDeltasOf chunks).foldl applyToolCallDelta [] := by
    rw [runStream_agg]
    rfl
  constructor
  · rw [hagg, finalizeAgg_map_fst]
    exact sortNat_pairwise_lt _ (nodupKeys_foldl _ [] (by simp))
  · intro k r hmem
    rw [hagg] at hmem
    have hl := mem_finalizeAgg _ _ _ hmem
    have hargs := args_foldl (toolDeltasOf chunks) [] k r hl
    simpa [lookupKey] using hargs

/-! ## Lemmas: the round executor -/

theorem exec_foldl_spec (ct : String → PyVal → Except String String)
    (sa : List String) (recs : List ToolCallRec) (l : List ToolCallRec)
    (acc : List Message × List (String × String) × List (String × PyVal)) :
    l.foldl (fun acc r =>
        let o := execOneToolCall ct sa recs r
        (acc.1 ++ [o.1], acc.2.1 ++ o.2.1, acc.2.2 ++ o.2.2)) acc =
      (acc.1 ++ l.map (fun r => (execOneToolCall ct sa recs r).1),
       acc.2.1 ++ (l.map (fun r => (execOneToolCall ct sa recs r).2.1)).flatten,
       acc.2.2 ++ (l.map (fun r => (execOneToolCall ct sa recs r).2.2)).flatten) := by
  induction l generalizing acc with
  | nil => simp
  | cons r t ih =>
    rw [List.foldl_cons, ih]
    simp

theorem execToolCalls_messages (ct : String → PyVal → Except String String)
    (sa : List String) (recs : List ToolCallRec) :
    (execToolCalls ct sa recs).1 =
      recs.map (fun r => (execOneToolCall ct sa recs r).1) := by
  unfold execToolCalls
  rw [exec_foldl_spec]
  simp

theorem execOne_role (ct : String → PyVal → Except String String)
    (sa : List String) (allRecs : List ToolCallRec) (r : ToolCallRec) :
    (execOneToolCall ct sa allRecs r).1.role = "tool" := by
  simp only [execOneToolCall]
  repeat' split
  all_goals rfl

theorem execOne_malformed (ct : String → PyVal → Except String String)
    (sa : List String) (allRecs : List ToolCallRec) (r : ToolCallRec)
    (h : (pyTruthy r.id && pyTruthy r.function.name) = false) :
    execOneToolCall ct sa allRecs r =
      ({ role := "tool",
         tool_call_id := some (if !(pyTruthy r.id) then
             "unknown_id_for_index_" ++ toString (firstIdxOf allRecs r)
           else r.id.getD ""),
         content := some malformedContent },
       [("tool_call", "工具调用失败，参数格式不正确")], []) := by
  simp only [execOneToolCall]
  rw [h]
  rfl

theorem execOne_parseFail (ct : String → PyVal → Except String String)
    (sa : List String) (allRecs : List ToolCallRec) (r : ToolCallRec)
    (n i e : String) (hid : r.id = some i) (hi : i ≠ "")
    (hn : r.function.name = some n) (hnn : n ≠ "")
    (hp : pyJsonLoads r.function.arguments = .error e) :
    execOneToolCall ct sa allRecs r =
      ({ role := "tool", tool_call_id := some i,
         content := some (parseFailContent n e r.function.arguments) },
       [("tool_call", "工具执行结果" ++ parseFailContent n e r.function.arguments),
        ("content", "\n\n")], []) := by
  have h1 : pyTruthy r.id = true := by rw [hid]; simpa [pyTruthy] using hi
  have h2 : pyTruthy r.function.name = true := by
    rw [hn]; simpa [pyTruthy] using hnn
  simp only [execOneToolCall]
  rw [h1, h2]
  simp [hp, hid, hn]

theorem execOne_execFail (ct : String → PyVal → Except String String)
    (sa : List String) (allRecs : List ToolCallRec) (r : ToolCallRec)
    (n i e : String) (v : PyVal) (hid : r.id = some i) (hi : i ≠ "")
    (hn : r.function.name = some n) (hnn : n ≠ "")
    (hp : pyJsonLoads r.function.arguments = .ok v)
    (hs : (showArgEvents sa v).2 = .ok ())
    (he : ct n v = .error e) :
    execOneToolCall ct sa allRecs r =
      ({ role := "tool", tool_call_id := some i,
         content := some (execFailContent n e) },
       (showArgEvents sa v).1 ++
         [("tool_call", "工具执行结果" ++ execFailContent n e),
          ("content", "\n\n")], [(n, v)]) := by
  have h1 : pyTruthy r.id = true := by rw [hid]; simpa [pyTruthy] using hi
  have h2 : pyTruthy r.function.name = true := by
    rw [hn]; simpa [pyTruthy] using hnn
  simp only [execOneToolCall]
  rw [h1, h2]
  simp only [Bool.and_self, Bool.not_true, Bool.false_eq_true, if_false, hp]
  have hsp : showArgEvents sa v = ((showArgEvents sa v).1, Except.ok ()) := by
    rw [← hs]
  rw [hsp]
  simp [hid, hn, he]

theorem execOne_success (ct : String → PyVal → Except String String)
    (sa : List String) (allRecs : List ToolCallRec) (r : ToolCallRec)
    (n i res : String) (v : PyVal) (hid : r.id = some i) (hi : i ≠ "")
    (hn : r.function.name = some n) (hnn : n ≠ "")
    (hp : pyJsonLoads r.function.arguments = .ok v)
    (hs : (showArgEvents sa v).2 = .ok ())
    (he : ct n v = .ok res) :
    execOneToolCall ct sa allRecs r =
      ({ role := "tool", tool_call_id := some i, content := some res },
       (showArgEvents sa v).1 ++
         [("tool_call", "工具执行结果" ++ res), ("content", "\n\n")],
       [(n, v)]) := by
  have h1 : pyTruthy r.id = true := by rw [hid]; simpa [pyTruthy] using hi
  have h2 : pyTruthy r.function.name = true := by
    rw [hn]; simpa [pyTruthy] using hnn
  simp only [execOneToolCall]
  rw [h1, h2]
  simp only [Bool.and_self, Bool.not_true, Bool.false_eq_true, if_false, hp]
  have hsp : showArgEvents sa v = ((showArgEvents sa v).1, Except.ok ()) := by
    rw [← hs]
  rw [hsp]
  simp [hid, hn, he]

/-! ## Lemmas: one loop round -/

theorem str_empty_append (s : String) : "" ++ s = s := by
  cases s
  rfl

theorem runStream_init_content (u : Usage) (chunks : List RoundChunk) :
    (runStream (initRound u) chunks).content = roundContent chunks := by
  rw [runStream_content, roundContent_eq]
  exact str_empty_append _

theorem runStream_init_agg (u : Usage) (chunks : List RoundChunk) :
    (runStream (initRound u) chunks).agg = roundAgg chunks := by
  rw [runStream_agg, roundAgg_eq]
  rfl

theorem runStream_init_events (u : Usage) (chunks : List RoundChunk) :
    (runStream (initRound u) chunks).events = roundEvents chunks := by
  rw [runStream_events, roundEvents_eq]
  rfl

theorem runRound_aborted (ct : String → PyVal → Except String String)
    (sa : List String) (st : LoopSt) (chunks : List RoundChunk)
    (hc : hasContentB (roundContent chunks) = false)
    (hr : roundRecs chunks = []) :
    runRound ct sa st chunks =
      ({ messages := st.messages,
         usage := (runStream (initRound st.usage) chunks).usage,
         events := st.events ++ roundEvents chunks,
         contentAll := st.contentAll ++ roundContent chunks }, .aborted) := by
  unfold roundRecs at hr
  simp only [runRound, runStream_init_content, runStream_init_agg,
    runStream_init_events, hr, hc]
  rfl

theorem runRound_finished (ct : String → PyVal → Except String String)
    (sa : List String) (st : LoopSt) (chunks : List RoundChunk)
    (hc : hasContentB (roundContent chunks) = true)
    (hr : roundRecs chunks = []) :
    runRound ct sa st chunks =
      ({ messages := st.messages ++
           [{ role := "assistant", content := some (roundContent chunks) }],
         usage := (runStream (initRound st.usage) chunks).usage,
         events := st.events ++ roundEvents chunks,
         contentAll := st.contentAll ++ roundContent chunks }, .finished) := by
  unfold roundRecs at hr
  simp only [runRound, runStream_init_content, runStream_init_agg,
    runStream_init_events, hr, hc]
  rfl

theorem runRound_moreTools (ct : String → PyVal → Except String String)
    (sa : List String) (st : LoopSt) (chunks : List RoundChunk)
    (hne : roundRecs chunks ≠ []) :
    runRound ct sa st chunks =
      ({ messages := st.messages ++ [assistantMsgOf chunks] ++
           (execToolCalls ct sa (roundRecs chunks)).1,
         usage := (runStream (initRound st.usage) chunks).usage,
         events := st.events ++ roundEvents chunks ++
           [("tool_call", "\n\n正在执行相关工具\n\n")] ++
           (execToolCalls ct sa (roundRecs chunks)).2.1,
         contentAll := st.contentAll }, .moreTools) := by
  have hemp : (roundRecs chunks).isEmpty = false := by
    cases hrr : roundRecs chunks with
    | nil => exact absurd hrr hne
    | cons a t => rfl
  unfold roundRecs at hemp
  simp only [runRound, runStream_init_content, runStream_init_agg,
    runStream_init_events, hemp, Bool.not_false, Bool.or_true, if_true,
    assistantMsgOf]
  unfold roundRecs
  simp
  intro h
  apply hne
  unfold roundRecs
  rw [h]
  rfl


/-! ## Claim C2 -/

/-- C2: for every list of reconstructed tool-call records processed in one
round, exactly one `tool`-role message is produced per record, the messages
appear in the same relative order as the records (whatever branch each
record takes: malformed, parse failure, executor failure, or success), and
the round appends exactly those messages to history after the assistant
message. -/
theorem round_executor_one_tool_message_per_record
    (ct : String → PyVal → Except String String) (sa : List String)
    (recs : List ToolCallRec) (st : LoopSt) (chunks : List RoundChunk)
    (hrecs : roundRecs chunks = recs) (hne : recs ≠ []) :
    (execToolCalls ct sa recs).1.length = recs.length ∧
    (∀ j : Nat, ((execToolCalls ct sa recs).1)[j]? =
      (recs[j]?).map (fun r => (execOneToolCall ct sa recs r).1)) ∧
    (∀ m ∈ (execToolCalls ct sa recs).1, m.role = "tool") ∧
    (runRound ct sa st chunks).1.messages =
      st.messages ++ assistantMsgOf chunks :: (execToolCalls ct sa recs).1 := by
  have hmsgs := execToolCalls_messages ct sa recs
  refine ⟨?_, ?_, ?_, ?_⟩
  · rw [hmsgs, List.length_map]
  · intro j
    rw [hmsgs]
    simp
  · intro m hm
    rw [hmsgs] at hm
    rcases List.mem_map.mp hm with ⟨r, _, hr⟩
    rw [← hr]
    exact execOne_role ct sa recs r
  · rw [runRound_moreTools ct sa st chunks (by rw [hrecs]; exact hne), hrecs]
    simp

/-- Witness for C2: one record reconstructed from one fragment; exactly one
`tool` message is produced and appended after the assistant message. -/
theorem round_executor_one_tool_message_per_record_witness :
    (execToolCalls exEcho [] [recW]).1.length = [recW].length ∧
    (∀ j : Nat, ((execToolCalls exEcho [] [recW]).1)[j]? =
      (([recW])[j]?).map (fun r => (execOneToolCall exEcho [] [recW] r).1)) ∧
    (∀ m ∈ (execToolCalls exEcho [] [recW]).1, m.role = "tool") ∧
    (runRound exEcho [] stW chunksW).1.messages =
      stW.messages ++ assistantMsgOf chunksW :: (execToolCalls exEcho [] [recW]).1 :=
  round_executor_one_tool_message_per_record exEcho [] [recW] stW chunksW
    (by rfl) (by decide)

/-! ## Claim C7 -/

theorem hasContentB_iff (s : String) : hasContentB s = true ↔ pyStrip s ≠ "" := by
  unfold hasContentB
  constructor
  · intro hb
    have hpair := (Bool.and_eq_true _ _).mp hb
    simpa using hpair.2
  · intro hp
    have hs : s ≠ "" := by
      intro he
      subst he
      exact hp rfl
    simp [hs, hp]

theorem assistantMsg_role (chunks : List RoundChunk) :
    (assistantMsgOf chunks).role = "assistant" := rfl

theorem assistantMsg_content_isSome (chunks : List RoundChunk) :
    (assistantMsgOf chunks).content.isSome = hasContentB (roundContent chunks) := by
  unfold assistantMsgOf
  by_cases h : hasContentB (roundContent chunks) = true <;> simp [h]

theorem assistantMsg_toolCalls_isSome (chunks : List RoundChunk) :
    (assistantMsgOf chunks).tool_calls.isSome = true ↔ roundRecs chunks ≠ [] := by
  unfold assistantMsgOf
  by_cases h : roundRecs chunks = [] <;> simp [h]

/-- C7: whenever a round produces non-blank content or at least one
tool-call record, exactly one assistant message is appended for that round
(followed only by `tool`-role messages), with a content field iff the
round's content is non-blank and a `tool_calls` field iff at least one
record was reconstructed. -/
theorem assistant_message_appended_iff
    (ct : String → PyVal → Except String String) (sa : List String)
    (st : LoopSt) (chunks : List RoundChunk)
    (h : hasContentB (roundContent chunks) = true ∨ roundRecs chunks ≠ []) :
    (∃ rest : List Message,
      (runRound ct sa st chunks).1.messages =
        st.messages ++ assistantMsgOf chunks :: rest ∧
      ∀ m ∈ rest, m.role = "tool") ∧
    (assistantMsgOf chunks).role = "assistant" ∧
    ((assistantMsgOf chunks).content.isSome = true ↔
      pyStrip (roundContent chunks) ≠ "") ∧
    ((assistantMsgOf chunks).tool_calls.isSome = true ↔
      roundRecs chunks ≠ []) := by
  refine ⟨?_, assistantMsg_role chunks, ?_, assistantMsg_toolCalls_isSome chunks⟩
  · by_cases hr : roundRecs chunks = []
    · have hc : hasContentB (roundContent chunks) = true := by
        rcases h with hc | hne
        · exact hc
        · exact absurd hr hne
      rw [runRound_finished ct sa st chunks hc hr]
      refine ⟨[], ?_, by simp⟩
      have hmsg : assistantMsgOf chunks =
          { role := "assistant", content := some (roundContent chunks) } := by
        unfold assistantMsgOf
        rw [hr]
        simp [hc]
      rw [hmsg]
    · rw [runRound_moreTools ct sa st chunks hr]
      refine ⟨(execToolCalls ct sa (roundRecs chunks)).1, by simp, ?_⟩
      intro m hm
      rw [execToolCalls_messages] at hm
      rcases List.mem_map.mp hm with ⟨r, _, hmr⟩
      rw [← hmr]
      exact execOne_role ct sa (roundRecs chunks) r
  · rw [assistantMsg_content_isSome, hasContentB_iff]

/-- Witness for C7: a round streaming the content `"hi"` and no tool calls
appends exactly one assistant message carrying that content. -/
theorem assistant_message_appended_iff_witness :
    (∃ rest : List Message,
      (runRound exEcho [] stW chunksHi).1.messages =
        stW.messages ++ assistantMsgOf chunksHi :: rest ∧
      ∀ m ∈ rest, m.role = "tool") ∧
    (assistantMsgOf chunksHi).role = "assistant" ∧
    ((assistantMsgOf chunksHi).content.isSome = true ↔
      pyStrip (roundContent chunksHi) ≠ "") ∧
    ((assistantMsgOf chunksHi).tool_calls.isSome = true ↔
      roundRecs chunksHi ≠ []) :=
  assistant_message_appended_iff exEcho [] stW chunksHi (Or.inl (by decide))

/-! ## Claim C6 -/

/-- C6: a record missing its id or name is never executed; a diagnostic
`tool` message with the fixed error string is appended, with the
`unknown_id_for_index_<i>` placeholder when the id is missing and the real
id otherwise, and the remaining records are still all processed. -/
theorem malformed_record_skipped
    (ct : String → PyVal → Except String String) (sa : List String)
    (recs : List ToolCallRec) (r : ToolCallRec)
    (h : (pyTruthy r.id && pyTruthy r.function.name) = false) :
    (execOneToolCall ct sa recs r).2.2 = [] ∧
    (execOneToolCall ct sa recs r).1.role = "tool" ∧
    (execOneToolCall ct sa recs r).1.content = some malformedContent ∧
    (pyTruthy r.id = false →
      (execOneToolCall ct sa recs r).1.tool_call_id =
        some ("unknown_id_for_index_" ++ toString (firstIdxOf recs r))) ∧
    (pyTruthy r.id = true →
      (execOneToolCall ct sa recs r).1.tool_call_id = r.id) ∧
    (execToolCalls ct sa recs).1.length = recs.length := by
  rw [execOne_malformed ct sa recs r h]
  refine ⟨rfl, rfl, rfl, ?_, ?_, ?_⟩
  · intro hid
    simp [hid]
  · intro hid
    cases hr : r.id with
    | none => rw [hr] at hid; exact absurd hid (by simp [pyTruthy])
    | some x =>
      rw [hr] at hid
      simp [hr, hid]
  · rw [execToolCalls_messages, List.length_map]

/-- Witness for C6: the all-absent record (no fragment ever carried an id or
name) is skipped with the placeholder id `unknown_id_for_index_0`. -/
theorem malformed_record_skipped_witness :
    (execOneToolCall exEcho [] [({} : ToolCallRec)] ({} : ToolCallRec)).2.2 = [] ∧
    (execOneToolCall exEcho [] [({} : ToolCallRec)] ({} : ToolCallRec)).1.role = "tool" ∧
    (execOneToolCall exEcho [] [({} : ToolCallRec)] ({} : ToolCallRec)).1.content =
      some malformedContent ∧
    (pyTruthy ({} : ToolCallRec).id = false →
      (execOneToolCall exEcho [] [({} : ToolCallRec)] ({} : ToolCallRec)).1.tool_call_id =
        some ("unknown_id_for_index_" ++
          toString (firstIdxOf [({} : ToolCallRec)] ({} : ToolCallRec)))) ∧
    (pyTruthy ({} : ToolCallRec).id = true →
      (execOneToolCall exEcho [] [({} : ToolCallRec)] ({} : ToolCallRec)).1.tool_call_id =
        ({} : ToolCallRec).id) ∧
    (execToolCalls exEcho [] [({} : ToolCallRec)]).1.length =
      [({} : ToolCallRec)].length :=
  malformed_record_skipped exEcho [] [({} : ToolCallRec)] ({} : ToolCallRec)
    (by decide)

/-! ## Claim C5 -/

/-- C5: an executor exception on a well-formed record with valid JSON
arguments is caught; the record's `tool` message carries the real id, and
its content contains the tool name, the error detail, and the retry
instruction.  (The model's executor is total, so no exception can escape
the loop; the invocation list records that the executor was called.) -/
theorem executor_failure_caught
    (ct : String → PyVal → Except String String) (sa : List String)
    (recs : List ToolCallRec) (r : ToolCallRec) (n i e : String) (v : PyVal)
    (hid : r.id = some i) (hi : i ≠ "")
    (hn : r.function.name = some n) (hnn : n ≠ "")
    (hp : pyJsonLoads r.function.arguments = .ok v)
    (hs : (showArgEvents sa v).2 = .ok ())
    (he : ct n v = .error e) :
    (execOneToolCall ct sa recs r).1.role = "tool" ∧
    (execOneToolCall ct sa recs r).1.tool_call_id = some i ∧
    (execOneToolCall ct sa recs r).2.2 = [(n, v)] ∧
    (execOneToolCall ct sa recs r).1.content = some (execFailContent n e) ∧
    n.data <:+: (execFailContent n e).data ∧
    e.data <:+: (execFailContent n e).data ∧
    ("请调整工具的参数，重新执行").data <:+: (execFailContent n e).data := by
  rw [execOne_execFail ct sa recs r n i e v hid hi hn hnn hp hs he]
  have hnl : ("\n请调整工具的参数，重新执行" : String) =
      "\n" ++ "请调整工具的参数，重新执行" := by decide
  have hsplit : execFailContent n e =
      "Error: Tool " ++ n ++ (" execution failed. Details: " ++
        (e ++ ("\n" ++ "请调整工具的参数，重新执行"))) := by
    unfold execFailContent
    rw [hnl]
    simp [String.append_assoc]
  refine ⟨rfl, rfl, rfl, rfl, ?_, ?_, ?_⟩
  · exact ⟨"Error: Tool ".data,
      (" execution failed. Details: " ++
        (e ++ ("\n" ++ "请调整工具的参数，重新执行"))).data,
      by rw [hsplit]; simp [String.data_append]⟩
  · refine ⟨("Error: Tool " ++ n ++ " execution failed. Details: ").data,
      ("\n" ++ "请调整工具的参数，重新执行").data, ?_⟩
    rw [hsplit]
    simp [String.data_append, List.append_assoc]
  · refine ⟨("Error: Tool " ++ n ++ " execution failed. Details: " ++
      e ++ "\n").data, [], ?_⟩
    rw [hsplit]
    simp [String.data_append, List.append_assoc]

/-- Witness for C5: a raising executor on a record with arguments `{}`. -/
theorem executor_failure_caught_witness :
    (execOneToolCall exBoom [] [recBoom] recBoom).1.role = "tool" ∧
    (execOneToolCall exBoom [] [recBoom] recBoom).1.tool_call_id = some "call_1" ∧
    (execOneToolCall exBoom [] [recBoom] recBoom).2.2 = [("demo_tool", .dict [])] ∧
    (execOneToolCall exBoom [] [recBoom] recBoom).1.content =
      some (execFailContent "demo_tool" "boom") ∧
    ("demo_tool" : String).data <:+: (execFailContent "demo_tool" "boom").data ∧
    ("boom" : String).data <:+: (execFailContent "demo_tool" "boom").data ∧
    ("请调整工具的参数，重新执行" : String).data <:+:
      (execFailContent "demo_tool" "boom").data :=
  executor_failure_caught exBoom [] [recBoom] recBoom "demo_tool" "call_1"
    "boom" (.dict []) rfl (by decide) rfl (by decide) rfl rfl rfl

/-! ## Claim C10 -/

/-- C10: a record with id and name but an empty accumulated arguments
string (no argument fragment ever arrived) is never executed: the empty
string fails JSON parsing and the parse-failure diagnostic tagged with the
record's id is appended instead. -/
theorem empty_arguments_parse_failure
    (ct : String → PyVal → Except String String) (sa : List String)
    (recs : List ToolCallRec) (r : ToolCallRec) (i n : String)
    (hid : r.id = some i) (hi : i ≠ "")
    (hn : r.function.name = some n) (hnn : n ≠ "")
    (ha : r.function.arguments = "") :
    (execOneToolCall ct sa recs r).2.2 = [] ∧
    (execOneToolCall ct sa recs r).1.role = "tool" ∧
    (execOneToolCall ct sa recs r).1.tool_call_id = some i ∧
    ∃ e, pyJsonLoads "" = .error e ∧
      (execOneToolCall ct sa recs r).1.content = some (parseFailContent n e "") := by
  have hp : pyJsonLoads r.function.arguments = .error "Expecting value" := by
    rw [ha]
    rfl
  rw [execOne_parseFail ct sa recs r n i "Expecting value" hid hi hn hnn hp]
  exact ⟨rfl, rfl, rfl, "Expecting value", rfl, by rw [ha]⟩

/-- Witness for C10: a record with id `call_9`, a name and empty arguments. -/
theorem empty_arguments_parse_failure_witness :
    (execOneToolCall exEcho [] [recNoArgs] recNoArgs).2.2 = [] ∧
    (execOneToolCall exEcho [] [recNoArgs] recNoArgs).1.role = "tool" ∧
    (execOneToolCall exEcho [] [recNoArgs] recNoArgs).1.tool_call_id =
      some "call_9" ∧
    ∃ e, pyJsonLoads "" = .error e ∧
      (execOneToolCall exEcho [] [recNoArgs] recNoArgs).1.content =
        some (parseFailContent "get_file" e "") :=
  empty_arguments_parse_failure exEcho [] [recNoArgs] recNoArgs "call_9"
    "get_file" rfl (by decide) rfl (by decide) rfl

/-! ## Claim C4 (a formatting slip in the source) -/

set_option maxRecDepth 4000 in
/-- C4: at the failing input — a well-formed record whose argument text is
a single newline (invalid JSON) — the executor is indeed never invoked and
the message carries the real id, but the appended content is the `str()` of
an unformatted 4-tuple, so it embeds only the `repr`-escaped payload: the
raw arguments payload (the newline) does not occur in the content. -/
theorem parse_fail_message_lacks_raw_payload :
    (execOneToolCall exEcho [] [c4rec] c4rec).2.2 = [] ∧
    (execOneToolCall exEcho [] [c4rec] c4rec).1.tool_call_id = some "call_1" ∧
    (execOneToolCall exEcho [] [c4rec] c4rec).1.content =
      some (parseFailContent "get_tree_structure" "Expecting value" "\n") ∧
    ¬ (("\n" : String).data <:+:
        (((execOneToolCall exEcho [] [c4rec] c4rec).1.content).getD "").data) := by
  refine ⟨rfl, rfl, rfl, ?_⟩
  decide

/-! ## Lemmas: the conversation loop -/

theorem runLoop_append (ct : String → PyVal → Except String String)
    (sa : List String) (l1 l2 : List (List RoundChunk)) (st : LoopSt) :
    runLoop ct sa (l1 ++ l2) st =
      if (runLoop ct sa l1 st).outcome = LoopOutcome.outOfStream then
        runLoop ct sa l2 (runLoop ct sa l1 st).state
      else runLoop ct sa l1 st := by
  induction l1 generalizing st with
  | nil => simp [runLoop]
  | cons r t ih =>
    rcases hrr : runRound ct sa st r with ⟨st2, ex⟩
    cases ex
    · simp [runLoop, hrr]
    · simp [runLoop, hrr]
    · simp only [List.cons_append, runLoop, hrr]
      exact ih st2

theorem runRound_extends (ct : String → PyVal → Except String String)
    (sa : List String) (st : LoopSt) (chunks : List RoundChunk) :
    ∃ a, (runRound ct sa st chunks).1.messages = st.messages ++ a := by
  by_cases hr : roundRecs chunks = []
  · by_cases hc : hasContentB (roundContent chunks) = true
    · rw [runRound_finished ct sa st chunks hc hr]
      exact ⟨_, rfl⟩
    · rw [runRound_aborted ct sa st chunks (by simpa using hc) hr]
      exact ⟨[], by simp⟩
  · rw [runRound_moreTools ct sa st chunks hr]
    exact ⟨[assistantMsgOf chunks] ++ (execToolCalls ct sa (roundRecs chunks)).1,
      by rw [List.append_assoc]⟩

theorem runLoop_extends (ct : String → PyVal → Except String String)
    (sa : List String) (rounds : List (List RoundChunk)) (st : LoopSt) :
    ∃ a, (runLoop ct sa rounds st).state.messages = st.messages ++ a := by
  induction rounds generalizing st with
  | nil => exact ⟨[], by simp [runLoop]⟩
  | cons r t ih =>
    obtain ⟨a, ha⟩ := runRound_extends ct sa st r
    rcases hrr : runRound ct sa st r with ⟨st2, ex⟩
    rw [hrr] at ha
    cases ex
    · exact ⟨a, by simp [runLoop, hrr]; exact ha⟩
    · exact ⟨a, by simp [runLoop, hrr]; exact ha⟩
    · obtain ⟨b, hb⟩ := ih st2
      refine ⟨a ++ b, ?_⟩
      simp only [runLoop, hrr]
      rw [hb, ha, List.append_assoc]

theorem plainStep_messages (st : PlainState) (c : SChunk) :
    (plainStep st c).messages = st.messages := by
  cases c with
  | usage u => rfl
  | noChoices => rfl
  | choice ct0 fr =>
    cases ct0 <;> cases fr <;> simp only [plainStep] <;> split <;> rfl

theorem foldl_plainStep_messages (chunks : List SChunk) (st : PlainState) :
    (chunks.foldl plainStep st).messages = st.messages := by
  induction chunks generalizing st with
  | nil => rfl
  | cons c t ih => rw [List.foldl_cons, ih, plainStep_messages]

theorem runPlainLoop_extends (responses : List (List SChunk)) (st : PlainState) :
    ∃ a, (runPlainLoop responses st).messages = st.messages ++ a := by
  induction responses generalizing st with
  | nil => exact ⟨[], by simp [runPlainLoop]⟩
  | cons resp rest ih =>
    simp only [runPlainLoop]
    split
    · have hm : (plainRound st resp).messages =
          st.messages ++ [{ role := "assistant", content := some (List.foldl plainStep st resp).full, pfx := true }] := by
        simp only [plainRound, foldl_plainStep_messages]
      obtain ⟨b, hb⟩ := ih (plainRound st resp)
      exact ⟨{ role := "assistant", content := some (List.foldl plainStep st resp).full, pfx := true } :: b,
        by rw [hb, hm, List.append_assoc]; rfl⟩
    · exact ⟨[], by simp⟩

/-! ## Claim C9 -/

/-- C9: both streaming entry points leave the caller's `messages_` list
unchanged (they copy it on entry) and only ever append to the internal
copy: the final internal history is the caller's list plus a suffix of
generated messages. -/
theorem caller_messages_unchanged (messages_ : List Message)
    (responses : List (List SChunk)) (rounds : List (List RoundChunk))
    (ct : String → PyVal → Except String String) (sa : List String)
    (u0 u1 : Usage) :
    (send_messages_stream messages_ responses u0).1 = messages_ ∧
    (∃ a, (send_messages_stream messages_ responses u0).2.messages =
      messages_ ++ a) ∧
    (send_messages_stream_with_tool_call messages_ ct sa rounds u1).1 =
      messages_ ∧
    (∃ b, (send_messages_stream_with_tool_call
        messages_ ct sa rounds u1).2.state.messages = messages_ ++ b) := by
  refine ⟨rfl, ?_, rfl, ?_⟩
  · exact runPlainLoop_extends responses _
  · exact runLoop_extends ct sa rounds _

/-! ## Claim C3 -/

/-- C3 counterexample: a single-round run whose round streams only the
whitespace content `" "` (blank, no tool calls) terminates as
`ABORTED_EMPTY` with no message appended, but the caller has received the
streamed `" "`, which differs from the content accumulated across all prior
rounds (the empty string, as there are no prior rounds). -/
theorem aborted_empty_round_counterexample :
    (send_messages_stream_with_tool_call [] exEcho [] [chunksBlank] {}).2.outcome =
      LoopOutcome.abortedEmpty ∧
    (send_messages_stream_with_tool_call [] exEcho [] [chunksBlank] {}).2.state.messages = [] ∧
    contentConcat
      (send_messages_stream_with_tool_call [] exEcho [] [chunksBlank] {}).2.state.events ≠ "" := by
  refine ⟨rfl, rfl, by decide⟩

/-- C3 (amended): if every earlier round continued and a round produces
neither non-blank content nor tool-call records, the loop terminates in
that round as `ABORTED_EMPTY` without raising and appends no assistant or
tool message for it; the caller has received the content of all prior
rounds followed by the (blank) content streamed during the terminal round. -/
theorem aborted_empty_round_amended (ct : String → PyVal → Except String String)
    (sa : List String) (messages_ : List Message) (u0 : Usage)
    (pre : List (List RoundChunk)) (c : List RoundChunk)
    (rest : List (List RoundChunk))
    (hreach : (runLoop ct sa pre (initLoopSt messages_ u0)).outcome =
      LoopOutcome.outOfStream)
    (hblank : pyStrip (roundContent c) = "")
    (hnorec : roundRecs c = []) :
    (send_messages_stream_with_tool_call messages_ ct sa (pre ++ c :: rest)
        u0).2.outcome = LoopOutcome.abortedEmpty ∧
    (send_messages_stream_with_tool_call messages_ ct sa (pre ++ c :: rest)
        u0).2.state.messages =
      (runLoop ct sa pre (initLoopSt messages_ u0)).state.messages ∧
    contentConcat (send_messages_stream_with_tool_call messages_ ct sa
        (pre ++ c :: rest) u0).2.state.events =
      contentConcat (runLoop ct sa pre (initLoopSt messages_ u0)).state.events ++
        roundContent c ∧
    pyStrip (roundContent c) = "" := by
  have hc : hasContentB (roundContent c) = false := by
    unfold hasContentB
    rw [hblank]
    simp
  have habort := runRound_aborted ct sa
    (runLoop ct sa pre (initLoopSt messages_ u0)).state c hc hnorec
  unfold send_messages_stream_with_tool_call
  rw [runLoop_append ct sa pre (c :: rest) (initLoopSt messages_ u0),
    if_pos hreach]
  have hres : runLoop ct sa (c :: rest)
      (runLoop ct sa pre (initLoopSt messages_ u0)).state =
    ⟨{ messages := (runLoop ct sa pre (initLoopSt messages_ u0)).state.messages,
       usage := (runStream (initRound
         (runLoop ct sa pre (initLoopSt messages_ u0)).state.usage) c).usage,
       events := (runLoop ct sa pre
         (initLoopSt messages_ u0)).state.events ++ roundEvents c,
       contentAll := (runLoop ct sa pre
         (initLoopSt messages_ u0)).state.contentAll ++ roundContent c },
     LoopOutcome.abortedEmpty⟩ := by
    simp only [runLoop, habort]
  rw [hres]
  refine ⟨rfl, rfl, ?_, hblank⟩
  rw [contentConcat_append, contentConcat_roundEvents]

/-- Witness for C3 (amended): a first round streaming only `" "` aborts the
run; the caller receives exactly that blank string. -/
theorem aborted_empty_round_amended_witness :
    (send_messages_stream_with_tool_call [] exEcho [] ([] ++ chunksBlank :: [])
        {}).2.outcome = LoopOutcome.abortedEmpty ∧
    (send_messages_stream_with_tool_call [] exEcho [] ([] ++ chunksBlank :: [])
        {}).2.state.messages =
      (runLoop exEcho [] [] (initLoopSt [] {})).state.messages ∧
    contentConcat (send_messages_stream_with_tool_call [] exEcho []
        ([] ++ chunksBlank :: []) {}).2.state.events =
      contentConcat (runLoop exEcho [] [] (initLoopSt [] {})).state.events ++
        roundContent chunksBlank ∧
    pyStrip (roundContent chunksBlank) = "" :=
  aborted_empty_round_amended exEcho [] [] {} [] chunksBlank [] rfl
    (by decide) rfl

/-! ## Claim C8 -/

theorem usage_foldl_fields (us : List Usage) (t : Usage) :
    (us.foldl update_total_token_usage t).prompt_tokens =
      t.prompt_tokens + (us.map (·.prompt_tokens)).sum ∧
    (us.foldl update_total_token_usage t).completion_tokens =
      t.completion_tokens + (us.map (·.completion_tokens)).sum ∧
    (us.foldl update_total_token_usage t).total_tokens =
      t.total_tokens + (us.map (·.total_tokens)).sum := by
  induction us generalizing t with
  | nil => simp
  | cons u rest ih =>
    obtain ⟨h1, h2, h3⟩ := ih (update_total_token_usage t u)
    refine ⟨?_, ?_, ?_⟩
    · rw [List.foldl_cons, h1, List.map_cons, List.sum_cons]
      simp only [update_total_token_usage]
      omega
    · rw [List.foldl_cons, h2, List.map_cons, List.sum_cons]
      simp only [update_total_token_usage]
      omega
    · rw [List.foldl_cons, h3, List.map_cons, List.sum_cons]
      simp only [update_total_token_usage]
      omega

theorem usage_eq_of_fields (a b : Usage)
    (hp : a.prompt_tokens = b.prompt_tokens)
    (hc : a.completion_tokens = b.completion_tokens)
    (ht : a.total_tokens = b.total_tokens) : a = b := by
  cases a
  cases b
  simp_all

/-- C8: the client's cumulative usage totals (`token_usage_total`, started
at zero by `__init__` and updated by `update_total_token_usage`) equal the
field-wise sum of all reported deltas, are therefore invariant under
permuting the reports (independent of how one logical total is split into
partial reports), and with non-negative reports each counter is
monotonically non-decreasing along the run. -/
theorem usage_totals_additive_monotone (us us2 l1 l2 : List Usage)
    (hperm : List.Perm us us2) (hsplit : us = l1 ++ l2)
    (hnn : ∀ u ∈ us, 0 ≤ u.prompt_tokens ∧ 0 ≤ u.completion_tokens ∧
      0 ≤ u.total_tokens) :
    (us.foldl update_total_token_usage {}).prompt_tokens =
      (us.map (·.prompt_tokens)).sum ∧
    (us.foldl update_total_token_usage {}).completion_tokens =
      (us.map (·.completion_tokens)).sum ∧
    (us.foldl update_total_token_usage {}).total_tokens =
      (us.map (·.total_tokens)).sum ∧
    us2.foldl update_total_token_usage {} = us.foldl update_total_token_usage {} ∧
    (l1.foldl update_total_token_usage {}).prompt_tokens ≤
      (us.foldl update_total_token_usage {}).prompt_tokens ∧
    (l1.foldl update_total_token_usage {}).completion_tokens ≤
      (us.foldl update_total_token_usage {}).completion_tokens ∧
    (l1.foldl update_total_token_usage {}).total_tokens ≤
      (us.foldl update_total_token_usage {}).total_tokens := by
  obtain ⟨hu1, hu2, hu3⟩ := usage_foldl_fields us ({} : Usage)
  obtain ⟨hv1, hv2, hv3⟩ := usage_foldl_fields us2 ({} : Usage)
  obtain ⟨hl1, hl2, hl3⟩ := usage_foldl_fields l1 ({} : Usage)
  have hz : ({} : Usage).prompt_tokens = 0 ∧ ({} : Usage).completion_tokens = 0 ∧
      ({} : Usage).total_tokens = 0 := ⟨rfl, rfl, rfl⟩
  have hsum : ∀ f : Usage → Int, (us2.map f).sum = (us.map f).sum :=
    fun f => ((hperm.map f).sum_eq).symm ▸ rfl
  have hnn2 : ∀ x ∈ l2.map (·.prompt_tokens), (0 : Int) ≤ x := by
    intro x hx
    rcases List.mem_map.mp hx with ⟨u, hu, hux⟩
    exact hux ▸ (hnn u (hsplit ▸ List.mem_append_right l1 hu)).1
  have hnn3 : ∀ x ∈ l2.map (·.completion_tokens), (0 : Int) ≤ x := by
    intro x hx
    rcases List.mem_map.mp hx with ⟨u, hu, hux⟩
    exact hux ▸ (hnn u (hsplit ▸ List.mem_append_right l1 hu)).2.1
  have hnn4 : ∀ x ∈ l2.map (·.total_tokens), (0 : Int) ≤ x := by
    intro x hx
    rcases List.mem_map.mp hx with ⟨u, hu, hux⟩
    exact hux ▸ (hnn u (hsplit ▸ List.mem_append_right l1 hu)).2.2
  have hsp : ∀ f : Usage → Int, (us.map f).sum = (l1.map f).sum + (l2.map f).sum := by
    intro f
    rw [hsplit, List.map_append, List.sum_append]
  refine ⟨by rw [hu1, hz.1]; omega, by rw [hu2, hz.2.1]; omega,
    by rw [hu3, hz.2.2]; omega, ?_, ?_, ?_, ?_⟩
  · refine usage_eq_of_fields _ _ ?_ ?_ ?_
    · rw [hu1, hv1, (hperm.map (·.prompt_tokens)).sum_eq]
    · rw [hu2, hv2, (hperm.map (·.completion_tokens)).sum_eq]
    · rw [hu3, hv3, (hperm.map (·.total_tokens)).sum_eq]
  · have := List.sum_nonneg hnn2
    rw [hu1, hl1, hsp (·.prompt_tokens)]
    omega
  · have := List.sum_nonneg hnn3
    rw [hu2, hl2, hsp (·.completion_tokens)]
    omega
  · have := List.sum_nonneg hnn4
    rw [hu3, hl3, hsp (·.total_tokens)]
    omega

/-- Witness for C8: two reports, permuted and split. -/
theorem usage_totals_additive_monotone_witness :
    (([⟨1, 2, 3⟩, ⟨10, 20, 30⟩] : List Usage).foldl update_total_token_usage
        {}).prompt_tokens =
      (([⟨1, 2, 3⟩, ⟨10, 20, 30⟩] : List Usage).map (·.prompt_tokens)).sum ∧
    (([⟨1, 2, 3⟩, ⟨10, 20, 30⟩] : List Usage).foldl update_total_token_usage
        {}).completion_tokens =
      (([⟨1, 2, 3⟩, ⟨10, 20, 30⟩] : List Usage).map (·.completion_tokens)).sum ∧
    (([⟨1, 2, 3⟩, ⟨10, 20, 30⟩] : List Usage).foldl update_total_token_usage
        {}).total_tokens =
      (([⟨1, 2, 3⟩, ⟨10, 20, 30⟩] : List Usage).map (·.total_tokens)).sum ∧
    ([⟨10, 20, 30⟩, ⟨1, 2, 3⟩] : List Usage).foldl update_total_token_usage {} =
      ([⟨1, 2, 3⟩, ⟨10, 20, 30⟩] : List Usage).foldl update_total_token_usage {} ∧
    (([⟨1, 2, 3⟩] : List Usage).foldl update_total_token_usage
        {}).prompt_tokens ≤
      (([⟨1, 2, 3⟩, ⟨10, 20, 30⟩] : List Usage).foldl update_total_token_usage
        {}).prompt_tokens ∧
    (([⟨1, 2, 3⟩] : List Usage).foldl update_total_token_usage
        {}).completion_tokens ≤
      (([⟨1, 2, 3⟩, ⟨10, 20, 30⟩] : List Usage).foldl update_total_token_usage
        {}).completion_tokens ∧
    (([⟨1, 2, 3⟩] : List Usage).foldl update_total_token_usage
        {}).total_tokens ≤
      (([⟨1, 2, 3⟩, ⟨10, 20, 30⟩] : List Usage).foldl update_total_token_usage
        {}).total_tokens :=
  usage_totals_additive_monotone [⟨1, 2, 3⟩, ⟨10, 20, 30⟩]
    [⟨10, 20, 30⟩, ⟨1, 2, 3⟩] [⟨1, 2, 3⟩] [⟨10, 20, 30⟩]
    (by decide) rfl (by decide)
